import Mathlib

set_option autoImplicit false

/-
  Verification development for the koa sample web app (www / admin / api apps,
  members database, capped log collections, outbound mail).

  The definitions below are shallow embeddings of the request handlers and
  helpers of the repository: the admin ajax relay, the www middleware chain
  with its error handler and post-data cleanup, the dev log viewers, the SMTP
  connection-string parser, and the mail send functions.  JavaScript strings
  are Lean String, millisecond timestamps are Int, and JavaScript values that
  may be undefined are Option.  Library calls of node (crypto, Buffer, RegExp,
  Number coercion) are modelled on the fragment of inputs the handlers use;
  each such model is documented at its definition.
-/

/- ================= generic string helpers (models of JS string ops) ====== -/

/-- Boolean prefix test on character lists: startsWithL p s is true iff p is a
prefix of s. -/
def startsWithL : List Char → List Char → Bool
  | [], _ => true
  | _ :: _, [] => false
  | p :: ps, c :: cs => p = c && startsWithL ps cs

/-- Replace the first occurrence of pat in the list by rep, as the JS
String.prototype.replace with a string pattern does. -/
def replaceFirstAux (pat rep : List Char) : List Char → List Char
  | [] => []
  | c :: cs =>
      if startsWithL pat (c :: cs) then rep ++ (c :: cs).drop pat.length
      else c :: replaceFirstAux pat rep cs

/-- Model of the JS s.replace(pat, rep) for a plain string pattern: only the
first occurrence is replaced; with an empty pattern the replacement is
prepended. -/
def replaceFirst (s pat rep : String) : String :=
  if s.data = [] then (if pat.data = [] then rep else s)
  else String.mk (replaceFirstAux pat.data rep.data s.data)

/-- Whitespace test of the JS trim, on the ASCII fragment the handlers meet. -/
def isJsSpace (c : Char) : Bool :=
  c = ' ' || c = '\t' || c = '\n' || c = '\r'

/-- Trim on character lists: drop whitespace from both ends. -/
def trimL (l : List Char) : List Char :=
  ((l.dropWhile isJsSpace).reverse.dropWhile isJsSpace).reverse

/-- Model of the JS String.prototype.trim (ASCII whitespace fragment). -/
def jsTrim (s : String) : String :=
  String.mk (trimL s.data)

/-- Accumulator pass of splitOnChar. -/
def splitOnCharAux (sep : Char) : List Char → List Char → List (List Char)
  | [], acc => [acc.reverse]
  | c :: cs, acc =>
      if c = sep then acc.reverse :: splitOnCharAux sep cs []
      else splitOnCharAux sep cs (c :: acc)

/-- Model of the JS String.prototype.split with a one-character separator:
the empty string gives one empty piece, a trailing separator a trailing empty
piece. -/
def splitOnChar (sep : Char) (l : List Char) : List (List Char) :=
  splitOnCharAux sep l []

/-- Alphabet used by base64 encoding. -/
def base64Alphabet : List Char :=
  "ABCDEFGHIJKLMNOPQRSTUVWXYZabcdefghijklmnopqrstuvwxyz0123456789+/".data

/-- Character of the base64 alphabet at index n. -/
def b64Char (n : Nat) : Char := base64Alphabet.getD n 'A'

/-- Base64 encoding of a byte list, with trailing padding, as produced by the
node Buffer toString base64 conversion. -/
def base64EncodeBytes : List Nat → List Char
  | [] => []
  | [a] => [b64Char (a / 4), b64Char (a % 4 * 16), '=', '=']
  | [a, b] => [b64Char (a / 4), b64Char (a % 4 * 16 + b / 16), b64Char (b % 16 * 4), '=']
  | a :: b :: c :: rest =>
      b64Char (a / 4) :: b64Char (a % 4 * 16 + b / 16) ::
      b64Char (b % 16 * 4 + c / 64) :: b64Char (c % 64) :: base64EncodeBytes rest

/-- Model of the base64Encode helper of the ajax router: new Buffer(str,
binary).toString(base64), i.e. base64 over the low byte of each character
code. -/
def base64Encode (str : String) : String :=
  String.mk (base64EncodeBytes (str.data.map (fun c => c.toNat % 256)))

/- ================= admin ajax relay (routes-ajax, getAjax) =============== -/

/-- Maximum api-token age used by getAjax, 1000*60*60*24 milliseconds. -/
def apiTokenMaxAgeMs : Int := 1000 * 60 * 60 * 24

/-- Token-staleness test of getAjax: the stored ApiToken (modelled as the
millisecond time Date.parse gives on its ISO string, none when the column is
null) is expired when it is null or when now minus its time exceeds 24 hours. -/
def apiTokenExpired (now : Int) (tok : Option Int) : Bool :=
  match tok with
  | none => true
  | some t => decide (now - t > apiTokenMaxAgeMs)

/-- Token-refresh step of getAjax: when the stored token is expired the user
row is updated with the current time as ISO string and re-read (so the session
holds some now); otherwise the stored token is kept. -/
def refreshApiToken (now : Int) (tok : Option Int) : Option Int :=
  if apiTokenExpired now tok then some now else tok

/-- Outgoing request assembled by getAjax before the fetch call. -/
structure ForwardedRequest where
  url : String
  method : String
  contentType : String
  accept : String
  authorization : String
  body : String
deriving DecidableEq, Repr

/-- Request-forwarding step of getAjax, translated line by line: resource is
the regex capture after /ajax/, the host swaps admin for api, the body is the
JSON serialization of the request body unless that is the two-character empty
object, and the Authorization header is Basic base64(UserId:sha1hex(ApiToken)).
The sha1hex parameter models crypto createHash sha1 digest hex. -/
def getAjaxForward (sha1hex : String → String)
    (protocol host resource method accept : String)
    (bodyJson : String) (userId : Nat) (apiToken : String) : ForwardedRequest :=
  let host2 := replaceFirst host "admin" "api"
  let url := protocol ++ "://" ++ host2 ++ "/" ++ resource
  let body := if bodyJson = "\x7b\x7d" then "" else bodyJson
  let user := toString userId
  let pass := sha1hex apiToken
  { url := url
    method := method
    contentType := "application/json"
    accept := accept
    authorization := "Basic " ++ base64Encode (user ++ ":" ++ pass)
    body := body }

/-- Upstream response as getAjax consumes it: status, whether the content-type
header matches application/json, and the payload text. -/
structure FetchResp where
  status : Nat
  contentTypeJson : Bool
  bodyText : String
deriving DecidableEq, Repr

/-- Body set by getAjax on the koa context: parsed json or plain text. -/
inductive AjaxBody
  | jsonBody (s : String)
  | textBody (s : String)
deriving DecidableEq, Repr

/-- Response step of getAjax: the try block relays status and (json or text)
body of the upstream response; the catch block answers 500 with the message of
the exception (fetch rejection on network or DNS failure). -/
def getAjaxRespond (r : Except String FetchResp) : Nat × AjaxBody :=
  match r with
  | .error msg => (500, .textBody msg)
  | .ok resp =>
      (resp.status,
       if resp.contentTypeJson then .jsonBody resp.bodyText else .textBody resp.bodyText)

/- ================= www app: error handler (handleErrors) ================= -/

/-- Error object as the www error middleware sees it: an optional numeric
status property, an optional message and an optional stack. -/
structure WwwErr where
  status : Option Nat
  message : Option String
  stack : Option String
deriving DecidableEq, Repr

/-- Status chosen by ctx.status = err.status or-else 500: 500 when the status
property is absent, and also when it is 0 (JS or-else tests truthiness, and 0
is falsy). -/
def errRespStatus (e : WwwErr) : Nat :=
  match e.status with
  | none => 500
  | some s => if s = 0 then 500 else s

/-- Outcome of the error middleware: response status, template rendered, the
error object as rendered (after the stack deletion and message clearing
mutations), which is also the object passed to Log.error. -/
structure ErrorPageRender where
  status : Nat
  template : String
  err : WwwErr
deriving DecidableEq, Repr

/-- Catch branch of the handleErrors middleware of app-www, translated line by
line: set status from err.status (500 when falsy), delete the stack in
production, render the 404 template (clearing a literal Not Found message) when
the resulting status is 404 and the 500 template otherwise, then log the error. -/
def handleErrorsRender (env : String) (e : WwwErr) : ErrorPageRender :=
  let status := errRespStatus e
  let e1 := if env = "production" then { e with stack := none } else e
  if status = 404 then
    let e2 := if e1.message = some "Not Found" then { e1 with message := none } else e1
    { status := 404, template := "404-not-found", err := e2 }
  else
    { status := status, template := "500-internal-server-error", err := e1 }

/- ================= www app: post-data cleanup (cleanPost) ================ -/

/-- Value of one posted form field: a string, null, or some non-string value
(the tag keeps distinct non-string values distinct). -/
inductive PostVal
  | strV (s : String)
  | nullV
  | otherV (tag : Nat)
deriving DecidableEq, Repr

/-- Per-field transformation of cleanPost: strings are trimmed and become null
when the trimmed value is empty; non-strings are untouched. -/
def cleanField : PostVal → PostVal
  | .strV s => if jsTrim s = "" then .nullV else .strV (jsTrim s)
  | v => v

/-- Field-map transformation of cleanPost, applied to every key of the chosen
body object. -/
def cleanFields (b : List (String × PostVal)) : List (String × PostVal) :=
  b.map (fun kv => (kv.1, cleanField kv.2))

/-- Request body as cleanPost sees it: the top-level simple fields, plus the
fields and files sub-objects that koa-body introduces for multipart data (the
multipart test of the source is presence of both). -/
structure PostBody where
  top : List (String × PostVal)
  fieldsSub : Option (List (String × PostVal))
  filesSub : Bool
deriving DecidableEq, Repr

/-- Body transformation of the cleanPost middleware: for a multipart body
(fields and files both present) the fields sub-object is cleaned, otherwise
the top-level fields are. -/
def cleanPostBody (b : PostBody) : PostBody :=
  let multipart := b.fieldsSub.isSome && b.filesSub
  if multipart then { b with fieldsSub := b.fieldsSub.map cleanFields }
  else { b with top := cleanFields b.top }

/-- Whole cleanPost middleware action on the request body: an undefined body
is left untouched. -/
def cleanPostMw : Option PostBody → Option PostBody
  | none => none
  | some b => some (cleanPostBody b)

/- ================= www app: middleware chain ============================= -/

/-- Names of the middleware functions installed on the www app, in source
order. -/
inductive Mw
  | staticServe
  | logAccess
  | templating
  | handleErrors
  | cleanPost
  | flash
  | lusca
  | ctxAddDomain
  | routing
  | notFound
deriving DecidableEq, Repr

/-- Middleware stack of app-www.js in the order the app.use calls occur. -/
def wwwMiddleware : List Mw :=
  [ .staticServe, .logAccess, .templating, .handleErrors, .cleanPost,
    .flash, .lusca, .ctxAddDomain, .routing, .notFound ]

/-- Boolean in-order subsequence test over middleware lists. -/
def subseqMw : List Mw → List Mw → Bool
  | [], _ => true
  | _ :: _, [] => false
  | a :: as, b :: bs => if a = b then subseqMw as bs else subseqMw (a :: as) bs

/-- Response produced by the www chain: status and the page served. -/
structure WwwResp where
  status : Nat
  page : String
deriving DecidableEq, Repr

/-- Request abstraction for running the www middleware chain: whether
koa-static finds a matching file under public, and what the matched www route
does (none when no route matches; the Except records a thrown exception). -/
structure WwwReq where
  isStatic : Bool
  route : Option (Except WwwErr WwwResp)

/-- Outcome of running part of the www middleware stack on a request: the
response or the escaped exception, whether Log.access ran, and whether
Log.error ran.  Each case follows the middleware source: koa-static answers
matching requests without calling downstream; logAccess times the downstream
call and logs only when it returns (an exception skips the Log.access call);
handleErrors catches a downstream exception, renders the error page of
handleErrorsRender and logs the error; routing answers or throws when a route
matches and falls through otherwise; notFound throws a 404 whose message is
Not Found; templating, cleanPost, flash, lusca and ctxAddDomain pass the
request downstream (their effects touch no field of this abstraction). -/
def runFrom (env : String) : List Mw → WwwReq → Except WwwErr WwwResp × Bool × Bool
  | [], _ => (.ok { status := 404, page := "koa-default" }, false, false)
  | .staticServe :: rest, req =>
      if req.isStatic then (.ok { status := 200, page := "static-file" }, false, false)
      else runFrom env rest req
  | .logAccess :: rest, req =>
      match runFrom env rest req with
      | (.ok r, _, el) => (.ok r, true, el)
      | (.error e, al, el) => (.error e, al, el)
  | .templating :: rest, req => runFrom env rest req
  | .handleErrors :: rest, req =>
      match runFrom env rest req with
      | (.ok r, al, el) => (.ok r, al, el)
      | (.error e, al, _) =>
          let epr := handleErrorsRender env e
          (.ok { status := epr.status, page := epr.template }, al, true)
  | .cleanPost :: rest, req => runFrom env rest req
  | .flash :: rest, req => runFrom env rest req
  | .lusca :: rest, req => runFrom env rest req
  | .ctxAddDomain :: rest, req => runFrom env rest req
  | .routing :: rest, req =>
      match req.route with
      | some o => (o, false, false)
      | none => runFrom env rest req
  | .notFound :: _, _ =>
      (.error { status := some 404, message := some "Not Found", stack := none }, false, false)

/-- Whole www middleware chain on a request. -/
def wwwRun (env : String) (req : WwwReq) : Except WwwErr WwwResp × Bool × Bool :=
  runFrom env wwwMiddleware req

/- ================= admin dev tools: log viewers (dev.js) ================= -/

/-- Stored access-log document, reduced to the fields the filters consult: the
entry timestamp (from the ObjectId), the request host and the response time in
milliseconds. -/
structure AccessEntry where
  ts : Int
  host : String
  ms : Int
deriving DecidableEq, Repr

/-- Query-string filter of the log viewers after the defaulting step of the
handlers: from and to are the parsed millisecond times of the (always
defaulted) yyyy-mm-dd dates, app and time are present only when the query
carried them. -/
structure LogQuery where
  fromTs : Int
  toTs : Int
  app : Option String
  time : Option Int
deriving DecidableEq, Repr

/-- Milliseconds of the one day the handler adds to the to date (setDate plus
one, which is 86400000 ms except across a DST change). -/
def dayMs : Int := 86400000

/-- Model of the JS RegExp test the app filter performs, RegExp(caret ++ app)
.test(host), for the fragment of patterns whose characters are literals or the
dot wildcard: the pattern must match host character by character from the
start, the dot matching any character. -/
def regexCaretMatch : List Char → List Char → Bool
  | [], _ => true
  | _ :: _, [] => false
  | p :: ps, c :: cs => (if p = '.' then true else p = c) && regexCaretMatch ps cs

/-- Characters that are metacharacters of JS regular expressions. -/
def isRegexMeta (c : Char) : Bool :=
  c = '.' || c = '*' || c = '+' || c = '?' || c = '^' || c = '$' ||
  c = '(' || c = ')' || c = '[' || c = ']' || c = '\x7b' || c = '\x7d' ||
  c = '|' || c = '\\'

/-- Filter pipeline of Dev.logAccess: an entry survives iff its timestamp is
at least the from date, at most the to date plus one day, its host passes the
anchored-regex test when an app parameter is given, and its ms exceeds the
time parameter when one is given. -/
def accessDisplayed (q : LogQuery) (e : AccessEntry) : Bool :=
  decide (q.fromTs ≤ e.ts) && decide (e.ts ≤ q.toTs + dayMs) &&
  (match q.app with
   | none => true
   | some a => regexCaretMatch a.data e.host.data) &&
  (match q.time with
   | none => true
   | some t => decide (t < e.ms))

/-- Stored error-log document, reduced to the timestamp the filters consult. -/
structure ErrorEntry where
  ts : Int
deriving DecidableEq, Repr

/-- Filter pipeline of Dev.logError: only the two date filters are applied. -/
def errorDisplayed (q : LogQuery) (e : ErrorEntry) : Bool :=
  decide (q.fromTs ≤ e.ts) && decide (e.ts ≤ q.toTs + dayMs)

/- ================= mail: SMTP_CONNECTION parsing (Mail.transporter) ====== -/

/-- Value universe of the smtp config object the reduce builds: strings from
the pairs, undefined for a pair without an equals sign, the boolean secure
flag, and one-level nested objects whose fields hold strings (or undefined). -/
inductive JsVal
  | undef
  | str (s : String)
  | jsBool (b : Bool)
  | obj (fields : List (String × Option String))
deriving DecidableEq, Repr

/-- Lookup of a property on the config object. -/
def lookupK : List (String × JsVal) → String → Option JsVal
  | [], _ => none
  | (k, v) :: rest, key => if k = key then some v else lookupK rest key

/-- Property assignment on the config object: replace in place, or append when
the key is new (JS object insertion order). -/
def setK : List (String × JsVal) → String → JsVal → List (String × JsVal)
  | [], key, v => [(key, v)]
  | (k, w) :: rest, key, v =>
      if k = key then (k, v) :: rest else (k, w) :: setK rest key v

/-- Lookup of a field on a nested object. -/
def lookupF : List (String × Option String) → String → Option (Option String)
  | [], _ => none
  | (k, v) :: rest, key => if k = key then some v else lookupF rest key

/-- Field assignment on a nested object. -/
def setF : List (String × Option String) → String → Option String →
    List (String × Option String)
  | [], key, v => [(key, v)]
  | (k, w) :: rest, key, v =>
      if k = key then (k, v) :: rest else (k, w) :: setF rest key v

/-- Truthiness of a JS value: undefined and the empty string are falsy,
objects are truthy, booleans are themselves. -/
def jsTruthy : JsVal → Bool
  | .undef => false
  | .str s => if s = "" then false else true
  | .jsBool b => b
  | .obj _ => true

/-- Numeric value of a nonempty digit string, none when a non-digit occurs. -/
def natOfDigits (ds : List Char) : Option Nat :=
  match ds with
  | [] => none
  | _ =>
      if ds.all (fun c => c.isDigit) then
        some (ds.foldl (fun n c => n * 10 + (c.toNat - 48)) 0)
      else none

/-- Model of the JS Number coercion on the string fragment the parser meets:
surrounding whitespace is ignored, the empty string is 0, decimal digits with
an optional leading minus are their value, anything else is NaN (none). -/
def jsNumber (s : String) : Option Int :=
  let t := jsTrim s
  if t = "" then some 0
  else
    match t.data with
    | '-' :: ds => (natOfDigits ds).map (fun n => -(n : Int))
    | ds => (natOfDigits ds).map (fun n => (n : Int))

/-- Loose equality of a JS value with a number, as the port comparison with
465 performs: strings coerce through Number (NaN compares false), booleans
coerce to 0 or 1, undefined and objects compare false. -/
def jsLooseEqNum (v : JsVal) (n : Int) : Bool :=
  match v with
  | .str s =>
      match jsNumber s with
      | some m => decide (m = n)
      | none => false
  | .jsBool b => decide ((if b then (1 : Int) else 0) = n)
  | _ => false

/-- One step of the reduce over the key=value pairs of SMTP_CONNECTION: key is
the first part, val the second (undefined when the pair has no equals sign); a
dotted key first replaces a falsy value at its root by an empty object and
then sets the nested field, raising the strict-mode TypeError (the error case)
when the root holds a truthy non-object; an undotted key is set directly. -/
def smtpStep (cfg : List (String × JsVal)) (parts : List String) :
    Except Unit (List (String × JsVal)) :=
  let key := parts.headD ""
  let val : Option String := (parts.drop 1).head?
  let keyParts := (splitOnChar '.' key.data).map String.mk
  if keyParts.length > 1 then
    let k0 := keyParts.headD ""
    let k1 := (keyParts.drop 1).headD ""
    match lookupK cfg k0 with
    | some (.obj o) => .ok (setK cfg k0 (.obj (setF o k1 val)))
    | some v =>
        if jsTruthy v then .error ()
        else .ok (setK cfg k0 (.obj (setF [] k1 val)))
    | none => .ok (setK cfg k0 (.obj (setF [] k1 val)))
  else
    .ok (setK cfg key (match val with | some v => .str v | none => .undef))

/-- Pair list of an SMTP_CONNECTION string: split on semicolons, trim each
piece, split each piece on equals signs. -/
def smtpParsePairs (s : String) : List (List String) :=
  (splitOnChar ';' s.data).map (fun v => (splitOnChar '=' (trimL v)).map String.mk)

/-- Config object built by the reduce of Mail.transporter. -/
def smtpConfigRaw (s : String) : Except Unit (List (String × JsVal)) :=
  (smtpParsePairs s).foldlM smtpStep []

/-- Config object of Mail.transporter after the secure step: when the port
property is truthy, secure is set to the loose equality of port with 465. -/
def smtpTransporterConfig (s : String) : Except Unit (List (String × JsVal)) :=
  match smtpConfigRaw s with
  | .error e => .error e
  | .ok cfg =>
      match lookupK cfg "port" with
      | some v =>
          if jsTruthy v then .ok (setK cfg "secure" (.jsBool (jsLooseEqNum v 465)))
          else .ok cfg
      | none => .ok cfg

/-- Key of a parsed key=value piece: its first part (the split is never
empty). -/
def keyOf (p : List String) : String := p.headD ""

/-- Value of a parsed piece: its second part, none when there was no equals
sign. -/
def valOf (p : List String) : Option String := (p.drop 1).head?

/-- Root of a config key: the part before the first dot. -/
def rootOf (k : String) : String :=
  String.mk ((splitOnChar '.' k.data).headD [])

/-- Nested part of a dotted config key: the part after the first dot (up to a
second dot), none for an undotted key. -/
def subOf (k : String) : Option String :=
  if (splitOnChar '.' k.data).length > 1 then
    some (String.mk (((splitOnChar '.' k.data).drop 1).headD []))
  else none

/-- Slot a parsed piece writes: its root and optional nested field. -/
def smtpSlot (p : List String) : String × Option String :=
  (rootOf (keyOf p), subOf (keyOf p))

/-- Field b of the object at property a of the config (none when a is absent
or not an object). -/
def cfgField (cfg : List (String × JsVal)) (a b : String) : Option (Option String) :=
  match lookupK cfg a with
  | some (.obj o) => lookupF o b
  | _ => none

/- ================= mail: send functions (Mail.send / sendHtml / sendText) - -/

/-- Message handed to the nodemailer transport. -/
structure MailMessage where
  toAddr : String
  fromAddr : String
  subject : String
  bodyHtml : Option String
  bodyText : Option String
  xOrigTo : Option String
deriving DecidableEq, Repr

/-- Reply-to address of the Mail.from getter. -/
def mailFrom : String := "noreply@movable-type.co.uk"

/-- Mail.send, as the message it hands to sendMail (none when no e-mail goes
out): bail out under the test framework; the subject parameter models the
title element of the rendered template and the text parameter the html-to-text
conversion of its html; outside production with nobody logged in, bail out;
outside production with a logged-in user (userEmail carries the Email of the
row User.get reads), replace the recipient and record the original one in the
X-Orig-To header. -/
def mailSend (underTest : Bool) (env : String) (userEmail : Option String)
    (rcpt subject html text : String) : Option MailMessage :=
  if underTest then none
  else
    let message : MailMessage :=
      { toAddr := rcpt, fromAddr := mailFrom, subject := subject,
        bodyHtml := some html, bodyText := some text, xOrigTo := none }
    if env ≠ "production" && userEmail.isNone then none
    else if env ≠ "production" then
      match userEmail with
      | some em => some { message with toAddr := em, xOrigTo := some rcpt }
      | none => none
    else some message

/-- Mail.sendHtml, with the same dev/staging redirection as mailSend; the text
parameter models the html-to-text conversion of the supplied html. -/
def mailSendHtml (underTest : Bool) (env : String) (userEmail : Option String)
    (rcpt subject html text : String) : Option MailMessage :=
  if underTest then none
  else
    let message : MailMessage :=
      { toAddr := rcpt, fromAddr := mailFrom, subject := subject,
        bodyHtml := some html, bodyText := some text, xOrigTo := none }
    if env ≠ "production" && userEmail.isNone then none
    else if env ≠ "production" then
      match userEmail with
      | some em => some { message with toAddr := em, xOrigTo := some rcpt }
      | none => none
    else some message

/-- Mail.sendText, with the same dev/staging redirection as mailSend; the
message carries only the plain text body. -/
def mailSendText (underTest : Bool) (env : String) (userEmail : Option String)
    (rcpt subject text : String) : Option MailMessage :=
  if underTest then none
  else
    let message : MailMessage :=
      { toAddr := rcpt, fromAddr := mailFrom, subject := subject,
        bodyHtml := none, bodyText := some text, xOrigTo := none }
    if env ≠ "production" && userEmail.isNone then none
    else if env ≠ "production" then
      match userEmail with
      | some em => some { message with toAddr := em, xOrigTo := some rcpt }
      | none => none
    else some message

/- ================= api app: member endpoints (modelled from the spec) ==== -/

/-- Member row, reduced to the columns the status-code behavior consults. -/
structure MemberRec where
  memberId : Nat
  email : String
  firstname : String
deriving DecidableEq, Repr

/-- Column read of a member row by name, for the filtered list endpoint. -/
def memberField (m : MemberRec) (f : String) : String :=
  if f = "Email" then m.email
  else if f = "Firstname" then m.firstname
  else ""

/-- Request reaching the api router, reduced to the member operations the
status-code behavior distinguishes. -/
inductive ApiAction
  | getMember (id : Nat)
  | listMembers (filterQ : Option (String × String))
  | addMember (email : String) (firstname : String)
  | patchMember (id : Nat)
  | deleteMember (id : Nat)
  | unknownResource
deriving DecidableEq, Repr

/-- Status and Location header of an api response. -/
structure ApiResponse where
  status : Nat
  location : Option String
deriving DecidableEq, Repr

/-- Modelled from the spec: the id the database assigns to a newly inserted
member (the member handlers and models are not under src, only their tests);
any fresh id works for the Location-header property, one more than the largest
existing id is used. -/
def newMemberId (db : List MemberRec) : Nat :=
  (db.map (fun m => m.memberId)).foldl max 0 + 1

/-- Modelled from the spec: status-code behavior of the api member endpoints
(the member handlers are not under src, only the tests in test/api.js): every
request without valid basic-auth credentials gets 401, reads, updates and
deletes of an existing member get 200 and of a missing member 404, a filtered
list with no matching member gets 204, a create gets 201 with a Location
header of /members/ plus the new id, or 409 when the Email duplicates an
existing row, and any other resource gets 404. -/
def apiRespond (authOk : Bool) (db : List MemberRec) (a : ApiAction) : ApiResponse :=
  if authOk = false then { status := 401, location := none }
  else
    match a with
    | .getMember id =>
        if db.any (fun m => m.memberId = id) then { status := 200, location := none }
        else { status := 404, location := none }
    | .listMembers none =>
        if db.isEmpty then { status := 204, location := none }
        else { status := 200, location := none }
    | .listMembers (some (f, v)) =>
        if (db.filter (fun m => memberField m f = v)).isEmpty then
          { status := 204, location := none }
        else { status := 200, location := none }
    | .addMember email _ =>
        if db.any (fun m => m.email = email) then { status := 409, location := none }
        else { status := 201, location := some ("/members/" ++ toString (newMemberId db)) }
    | .patchMember id =>
        if db.any (fun m => m.memberId = id) then { status := 200, location := none }
        else { status := 404, location := none }
    | .deleteMember id =>
        if db.any (fun m => m.memberId = id) then { status := 200, location := none }
        else { status := 404, location := none }
    | .unknownResource => { status := 404, location := none }

/- ======================================================================== -/
/- ================= theorems ============================================= -/
/- ======================================================================== -/

/-- C1: the ajax relay re-issues the api auth token exactly when the stored
token is null or was issued more than 86400000 ms before now (the re-issue
storing the current time, which the session then holds); a stored token at
most 24 hours old is left unchanged. -/
theorem getAjax_token_refresh (now : Int) (tok : Option Int) :
    (apiTokenExpired now tok = true ↔
       tok = none ∨ ∃ t, tok = some t ∧ now - t > 86400000) ∧
    (apiTokenExpired now tok = true → refreshApiToken now tok = some now) ∧
    (∀ t, tok = some t → now - t ≤ 86400000 → refreshApiToken now tok = some t) := by
  refine ⟨?_, ?_, ?_⟩
  · cases tok with
    | none => simp [apiTokenExpired]
    | some t => simp [apiTokenExpired, apiTokenMaxAgeMs]
  · intro h
    simp [refreshApiToken, h]
  · intro t ht hle
    subst ht
    have hexp : apiTokenExpired now (some t) = false := by
      simp [apiTokenExpired, apiTokenMaxAgeMs]
      omega
    simp [refreshApiToken, hexp]

/-- Witness for C1 at concrete inputs: a null token is re-issued with the
current time, and a token younger than a day is kept. -/
theorem getAjax_token_refresh_witness :
    refreshApiToken 200000000000 none = some 200000000000 ∧
    refreshApiToken 100 (some 50) = some 50 := by
  constructor
  · exact (getAjax_token_refresh 200000000000 none).2.1 (by decide)
  · exact (getAjax_token_refresh 100 (some 50)).2.2 50 rfl (by decide)

/-- C2: every request the ajax relay forwards carries an Authorization header
of Basic plus the base64 encoding of UserId, a colon, and the hex sha1 of the
ApiToken; its url keeps the protocol and resource path with admin replaced by
api in the host; the method is preserved; and the body is the JSON
serialization of the incoming body, or empty when that serialization is the
empty object. -/
theorem getAjax_forward_shape (sha1hex : String → String)
    (protocol host resource method accept bodyJson : String)
    (uid : Nat) (tok : String) :
    (getAjaxForward sha1hex protocol host resource method accept bodyJson uid tok).authorization
        = "Basic " ++ base64Encode (toString uid ++ ":" ++ sha1hex tok) ∧
    (getAjaxForward sha1hex protocol host resource method accept bodyJson uid tok).url
        = protocol ++ "://" ++ replaceFirst host "admin" "api" ++ "/" ++ resource ∧
    (getAjaxForward sha1hex protocol host resource method accept bodyJson uid tok).method
        = method ∧
    (getAjaxForward sha1hex protocol host resource method accept bodyJson uid tok).body
        = (if bodyJson = "\x7b\x7d" then "" else bodyJson) :=
  ⟨rfl, rfl, rfl, rfl⟩

/-- C8: when the forwarded request fails (the fetch promise rejects), getAjax
does not propagate the exception: it answers status 500 with the message of
the error as body. -/
theorem getAjax_fetch_failure (msg : String) :
    getAjaxRespond (.error msg) = (500, .textBody msg) := rfl

/-- C3 counterexample: an error whose status property is the number 0 is
answered with status 500, not with its status property, because the or-else
fallback of the handler treats 0 as falsy. -/
theorem handleErrors_status_zero_cex :
    (handleErrorsRender "development"
       { status := some 0, message := some "boom", stack := some "trace" }).status ≠ 0 ∧
    (handleErrorsRender "development"
       { status := some 0, message := some "boom", stack := some "trace" }).status = 500 := by
  decide

/-- C3 amended: the error middleware sets the response status to the status
property of the error when that is a nonzero number, and to 500 when it is
absent or zero; a resulting 404 renders the 404-not-found template, clearing
the message when it is exactly Not Found; every other status renders the
500-internal-server-error template; in production the stack property is
deleted before rendering (elsewhere it is kept); and the resulting (mutated)
error object is the one recorded via Log.error. -/
theorem handleErrors_spec (env : String) (e : WwwErr) :
    (handleErrorsRender env e).status =
      (match e.status with | none => 500 | some s => if s = 0 then 500 else s) ∧
    ((handleErrorsRender env e).status = 404 →
       (handleErrorsRender env e).template = "404-not-found") ∧
    ((handleErrorsRender env e).status ≠ 404 →
       (handleErrorsRender env e).template = "500-internal-server-error") ∧
    (env = "production" → (handleErrorsRender env e).err.stack = none) ∧
    (env ≠ "production" → (handleErrorsRender env e).err.stack = e.stack) ∧
    ((handleErrorsRender env e).status = 404 → e.message = some "Not Found" →
       (handleErrorsRender env e).err.message = none) ∧
    ((handleErrorsRender env e).status = 404 → e.message ≠ some "Not Found" →
       (handleErrorsRender env e).err.message = e.message) := by
  rcases e with ⟨st, msg, stk⟩
  unfold handleErrorsRender errRespStatus
  dsimp only
  split <;> split_ifs <;> simp_all

/-- Witness for C3 at concrete inputs: a production 404 with the default koa
message renders the 404 template with the message cleared and the stack
removed. -/
theorem handleErrors_spec_witness :
    (handleErrorsRender "production"
       { status := some 404, message := some "Not Found", stack := some "trace" }).template
      = "404-not-found" ∧
    (handleErrorsRender "production"
       { status := some 404, message := some "Not Found", stack := some "trace" }).err.stack
      = none ∧
    (handleErrorsRender "production"
       { status := some 404, message := some "Not Found", stack := some "trace" }).err.message
      = none := by
  have h := handleErrors_spec "production"
    { status := some 404, message := some "Not Found", stack := some "trace" }
  exact ⟨h.2.1 (by decide), h.2.2.2.1 rfl, h.2.2.2.2.2.1 (by decide) rfl⟩

/-- C9: the cleanPost middleware leaves an undefined body untouched, cleans
the fields sub-object for a multipart body and the top-level fields otherwise,
and per field trims every string (a string trimming to empty becomes null)
while leaving non-string values unchanged. -/
theorem cleanPost_spec (b : PostBody) :
    cleanPostMw none = none ∧
    (∀ f, b.fieldsSub = some f → b.filesSub = true →
       (cleanPostBody b).fieldsSub = some (cleanFields f) ∧
       (cleanPostBody b).top = b.top) ∧
    ((b.fieldsSub.isSome && b.filesSub) = false →
       (cleanPostBody b).top = cleanFields b.top ∧
       (cleanPostBody b).fieldsSub = b.fieldsSub) ∧
    (∀ (l : List (String × PostVal)) (k : String) (v : PostVal),
       (k, v) ∈ l → (k, cleanField v) ∈ cleanFields l) ∧
    (∀ s : String, jsTrim s ≠ "" → cleanField (.strV s) = .strV (jsTrim s)) ∧
    (∀ s : String, jsTrim s = "" → cleanField (.strV s) = .nullV) ∧
    cleanField .nullV = .nullV ∧
    (∀ t, cleanField (.otherV t) = .otherV t) := by
  refine ⟨rfl, ?_, ?_, ?_, ?_, ?_, rfl, fun t => rfl⟩
  · intro f hf hfil
    have : (b.fieldsSub.isSome && b.filesSub) = true := by
      simp [hf, hfil]
    simp [cleanPostBody, this, hf, hfil]
  · intro hmul
    simp [cleanPostBody, hmul]
  · intro l k v hmem
    have h := List.mem_map_of_mem (fun kv => (kv.1, cleanField kv.2)) hmem
    simpa [cleanFields] using h
  · intro s hs
    simp [cleanField, hs]
  · intro s hs
    simp [cleanField, hs]

/-- Witness for C9 at a concrete multipart body: the fields sub-object is
cleaned (trimming one field, nulling a blank one, keeping a number). -/
theorem cleanPost_spec_witness :
    (cleanPostBody
       { top := [("a", .strV " raw ")],
         fieldsSub := some [("name", .strV " Ann "), ("note", .strV "   "), ("n", .otherV 7)],
         filesSub := true }).fieldsSub
      = some [("name", .strV "Ann"), ("note", .nullV), ("n", .otherV 7)] := by
  have h := (cleanPost_spec
    { top := [("a", .strV " raw ")],
      fieldsSub := some [("name", .strV " Ann "), ("note", .strV "   "), ("n", .otherV 7)],
      filesSub := true }).2.1
    [("name", .strV " Ann "), ("note", .strV "   "), ("n", .otherV 7)] rfl rfl
  rw [h.1]
  decide

/-- C10: in every environment other than production the three mail functions
never deliver to the supplied recipient: under the test framework nothing is
sent at all; with nobody logged in nothing is sent; with a logged-in user the
message actually sent goes to the Email of that user and records the original
recipient in the X-Orig-To header. -/
theorem mail_dev_redirect (env : String) (u : Option String)
    (em rcpt subject html text : String) :
    (mailSend true env u rcpt subject html text = none ∧
     mailSendHtml true env u rcpt subject html text = none ∧
     mailSendText true env u rcpt subject text = none) ∧
    (env ≠ "production" →
       mailSend false env none rcpt subject html text = none ∧
       mailSendHtml false env none rcpt subject html text = none ∧
       mailSendText false env none rcpt subject text = none) ∧
    (env ≠ "production" →
       mailSend false env (some em) rcpt subject html text =
         some { toAddr := em, fromAddr := mailFrom, subject := subject,
                bodyHtml := some html, bodyText := some text, xOrigTo := some rcpt } ∧
       mailSendHtml false env (some em) rcpt subject html text =
         some { toAddr := em, fromAddr := mailFrom, subject := subject,
                bodyHtml := some html, bodyText := some text, xOrigTo := some rcpt } ∧
       mailSendText false env (some em) rcpt subject text =
         some { toAddr := em, fromAddr := mailFrom, subject := subject,
                bodyHtml := none, bodyText := some text, xOrigTo := some rcpt }) := by
  refine ⟨⟨rfl, rfl, rfl⟩, ?_, ?_⟩
  · intro henv
    simp [mailSend, mailSendHtml, mailSendText, henv]
  · intro henv
    simp [mailSend, mailSendHtml, mailSendText, henv]

/-- Witness for C10 at concrete inputs in the development environment: the
sent message goes to the developer with the original recipient recorded. -/
theorem mail_dev_redirect_witness :
    mailSend false "development" (some "dev@my.app") "member@x.com" "subj" "<p>hi</p>" "hi" =
      some { toAddr := "dev@my.app", fromAddr := mailFrom, subject := "subj",
             bodyHtml := some "<p>hi</p>", bodyText := some "hi",
             xOrigTo := some "member@x.com" } ∧
    mailSendText false "development" none "member@x.com" "subj" "hi" = none := by
  have h := mail_dev_redirect "development" (some "dev@my.app")
    "dev@my.app" "member@x.com" "subj" "<p>hi</p>" "hi"
  exact ⟨(h.2.2 (by decide)).1, (h.2.1 (by decide)).2.2⟩

/-- C7: the www app composes the stated middleware in the stated order
(static files, then request logging, templating, error handling, body
cleanup, flash messages, security headers, routing); consequently a
static-file response short-circuits before the access logger and is not
logged, and an exception thrown by a matched route is caught by the error
handler, rendered as an error page (and error-logged) instead of escaping. -/
theorem www_middleware_order :
    subseqMw
      [.staticServe, .logAccess, .templating, .handleErrors, .cleanPost,
       .flash, .lusca, .routing] wwwMiddleware = true ∧
    (∀ (env : String) (req : WwwReq), req.isStatic = true →
       wwwRun env req = (.ok { status := 200, page := "static-file" }, false, false)) ∧
    (∀ (env : String) (req : WwwReq) (e : WwwErr),
       req.isStatic = false → req.route = some (.error e) →
       wwwRun env req =
         (.ok { status := (handleErrorsRender env e).status,
                page := (handleErrorsRender env e).template }, true, true)) := by
  refine ⟨by decide, ?_, ?_⟩
  · intro env req hs
    simp [wwwRun, wwwMiddleware, runFrom, hs]
  · intro env req e hs hr
    simp [wwwRun, wwwMiddleware, runFrom, hs, hr]

/-- Witness for C7 at concrete requests: a static request is served unlogged,
and a throwing route yields the 500 page with both logs taken. -/
theorem www_middleware_order_witness :
    wwwRun "development" { isStatic := true, route := none } =
      (.ok { status := 200, page := "static-file" }, false, false) ∧
    wwwRun "development"
        { isStatic := false,
          route := some (.error { status := none, message := some "boom", stack := none }) } =
      (.ok { status := 500, page := "500-internal-server-error" }, true, true) := by
  constructor
  · exact www_middleware_order.2.1 "development" { isStatic := true, route := none } rfl
  · have h := www_middleware_order.2.2 "development"
      { isStatic := false,
        route := some (.error { status := none, message := some "boom", stack := none }) }
      { status := none, message := some "boom", stack := none } rfl rfl
    rw [h]
    rfl

/-- Helper for C4: on a pattern free of regex metacharacters the anchored
regex test is exactly the prefix test. -/
theorem regexCaretMatch_no_meta (a : List Char)
    (ha : ∀ c ∈ a, isRegexMeta c = false) (h : List Char) :
    regexCaretMatch a h = startsWithL a h := by
  induction a generalizing h with
  | nil => cases h <;> rfl
  | cons p ps ih =>
      cases h with
      | nil => rfl
      | cons c cs =>
          have hp : isRegexMeta p = false := ha p (List.mem_cons_self p ps)
          have hpd : ¬ p = '.' := by
            intro hcontr
            rw [hcontr] at hp
            simp [isRegexMeta] at hp
          have hrest : ∀ c2 ∈ ps, isRegexMeta c2 = false :=
            fun c2 hc2 => ha c2 (List.mem_cons_of_mem p hc2)
          simp [regexCaretMatch, startsWithL, hpd, ih hrest cs]

/-- C4 counterexample: with an app parameter of a single dot (a regex
wildcard) the access viewer displays an entry whose host does not start with
the parameter, because the filter is an anchored regex test, not a prefix
test. -/
theorem dev_log_filters_cex :
    accessDisplayed { fromTs := 0, toTs := 1000000000000, app := some ".", time := none }
        { ts := 5, host := "xyz", ms := 1 } = true ∧
    startsWithL ".".data "xyz".data = false := by
  decide

/-- C4 amended: the access viewer displays an entry iff its timestamp is on
or after the from date and on or before the to date plus one day, its host
matches the app parameter anchored at the start as a regular expression when
one is given (which is exactly a starts-with test whenever the parameter
contains no regex metacharacters), and its response time strictly exceeds the
time parameter when one is given; the error viewer applies only the two date
filters. -/
theorem dev_log_filters (q : LogQuery) (e : AccessEntry) (er : ErrorEntry) :
    (accessDisplayed q e = true ↔
       q.fromTs ≤ e.ts ∧ e.ts ≤ q.toTs + dayMs ∧
       (∀ a, q.app = some a → regexCaretMatch a.data e.host.data = true) ∧
       (∀ t, q.time = some t → t < e.ms)) ∧
    (∀ a, q.app = some a → (∀ c ∈ a.data, isRegexMeta c = false) →
       regexCaretMatch a.data e.host.data = startsWithL a.data e.host.data) ∧
    (errorDisplayed q er = true ↔ q.fromTs ≤ er.ts ∧ er.ts ≤ q.toTs + dayMs) := by
  refine ⟨?_, ?_, ?_⟩
  · rcases hq : q.app with _ | a <;> rcases ht : q.time with _ | t <;>
      simp [accessDisplayed, hq, ht, and_assoc]
  · intro a _ ha
    exact regexCaretMatch_no_meta a.data ha e.host.data
  · simp [errorDisplayed]

/-- Witness for C4 at concrete inputs: an entry inside the date range, with a
host matching the app parameter and a response time above the threshold, is
displayed. -/
theorem dev_log_filters_witness :
    accessDisplayed { fromTs := 0, toTs := 86400000, app := some "www", time := some 100 }
        { ts := 400, host := "www.my.app", ms := 250 } = true := by
  have h := dev_log_filters
    { fromTs := 0, toTs := 86400000, app := some "www", time := some 100 }
    { ts := 400, host := "www.my.app", ms := 250 } { ts := 0 }
  refine h.1.mpr ⟨by decide, by decide, ?_, ?_⟩
  · intro a ha
    injection ha with ha2
    subst ha2
    decide
  · intro t ht
    injection ht with ht2
    subst ht2
    decide

/-- C5 (spec-modelled from test/api.js and the spec): the member endpoints
answer 401 whenever credentials are missing or invalid, for any resource; 200
on a read, update or delete of an existing member; 404 on a missing member or
unknown resource when authenticated; 204 on a filtered list matching no
member; 201 with a Location header of /members/ plus the new id on create;
and 409 on a create whose Email duplicates an existing row. -/
theorem api_status_codes (db : List MemberRec) (a : ApiAction) (id : Nat)
    (email firstname f v : String) :
    apiRespond false db a = { status := 401, location := none } ∧
    (db.any (fun m => m.memberId = id) = true →
       apiRespond true db (.getMember id) = { status := 200, location := none } ∧
       apiRespond true db (.patchMember id) = { status := 200, location := none } ∧
       apiRespond true db (.deleteMember id) = { status := 200, location := none }) ∧
    (db.any (fun m => m.memberId = id) = false →
       apiRespond true db (.getMember id) = { status := 404, location := none } ∧
       apiRespond true db (.patchMember id) = { status := 404, location := none } ∧
       apiRespond true db (.deleteMember id) = { status := 404, location := none }) ∧
    ((db.filter (fun m => memberField m f = v)).isEmpty = true →
       apiRespond true db (.listMembers (some (f, v))) =
         { status := 204, location := none }) ∧
    ((db.filter (fun m => memberField m f = v)).isEmpty = false →
       apiRespond true db (.listMembers (some (f, v))) =
         { status := 200, location := none }) ∧
    (db.any (fun m => m.email = email) = false →
       apiRespond true db (.addMember email firstname) =
         { status := 201, location := some ("/members/" ++ toString (newMemberId db)) }) ∧
    (db.any (fun m => m.email = email) = true →
       apiRespond true db (.addMember email firstname) =
         { status := 409, location := none }) ∧
    apiRespond true db .unknownResource = { status := 404, location := none } := by
  refine ⟨rfl, ?_, ?_, ?_, ?_, ?_, ?_, rfl⟩ <;>
    { intro h; simp [apiRespond, h] }

/-- Witness for C5 on a concrete database: reads of member 1 succeed, member
9 is 404, an empty filtered list is 204, a duplicate create is 409, a fresh
create is 201 with its Location header. -/
theorem api_status_codes_witness :
    apiRespond true [{ memberId := 1, email := "a@x.com", firstname := "Ann" }]
        (.getMember 1) = { status := 200, location := none } ∧
    apiRespond true [{ memberId := 1, email := "a@x.com", firstname := "Ann" }]
        (.getMember 9) = { status := 404, location := none } ∧
    apiRespond true [{ memberId := 1, email := "a@x.com", firstname := "Ann" }]
        (.listMembers (some ("Firstname", "nomatch"))) =
      { status := 204, location := none } ∧
    apiRespond true [{ memberId := 1, email := "a@x.com", firstname := "Ann" }]
        (.addMember "a@x.com" "Bob") = { status := 409, location := none } ∧
    apiRespond true [{ memberId := 1, email := "a@x.com", firstname := "Ann" }]
        (.addMember "b@x.com" "Bob") =
      { status := 201, location := some "/members/2" } := by
  have h := api_status_codes
    [{ memberId := 1, email := "a@x.com", firstname := "Ann" }]
    .unknownResource 1 "a@x.com" "Bob" "Firstname" "nomatch"
  have h9 := api_status_codes
    [{ memberId := 1, email := "a@x.com", firstname := "Ann" }]
    .unknownResource 9 "b@x.com" "Bob" "Firstname" "nomatch"
  refine ⟨(h.2.1 (by decide)).1, (h9.2.2.1 (by decide)).1,
          h.2.2.2.1 (by decide), h.2.2.2.2.2.2.1 (by decide), ?_⟩
  have h201 := h9.2.2.2.2.2.1 (by decide)
  simpa [newMemberId] using h201

/-- Helper for C6: lookup after assignment on the config object. -/
theorem lookupK_setK (cfg : List (String × JsVal)) (k k2 : String) (v : JsVal) :
    lookupK (setK cfg k v) k2 = if k = k2 then some v else lookupK cfg k2 := by
  induction cfg with
  | nil => by_cases h : k = k2 <;> simp [setK, lookupK, h]
  | cons kv rest ih =>
      obtain ⟨k3, v3⟩ := kv
      by_cases h3 : k3 = k
      · subst h3
        by_cases h : k3 = k2 <;> simp [setK, lookupK, h]
      · by_cases h : k3 = k2
        · subst h
          have : ¬ k = k3 := fun hc => h3 hc.symm
          simp [setK, lookupK, h3, this]
        · simp [setK, lookupK, h3, h, ih]

/-- Helper for C6: lookup after assignment on a nested object. -/
theorem lookupF_setF (o : List (String × Option String)) (k k2 : String)
    (v : Option String) :
    lookupF (setF o k v) k2 = if k = k2 then some v else lookupF o k2 := by
  induction o with
  | nil => by_cases h : k = k2 <;> simp [setF, lookupF, h]
  | cons kv rest ih =>
      obtain ⟨k3, v3⟩ := kv
      by_cases h3 : k3 = k
      · subst h3
        by_cases h : k3 = k2 <;> simp [setF, lookupF, h]
      · by_cases h : k3 = k2
        · subst h
          have : ¬ k = k3 := fun hc => h3 hc.symm
          simp [setF, lookupF, h3, this]
        · simp [setF, lookupF, h3, h, ih]

/-- Helper for C6: a split is never the empty list. -/
theorem splitOnCharAux_ne_nil (sep : Char) (l acc : List Char) :
    splitOnCharAux sep l acc ≠ [] := by
  induction l generalizing acc with
  | nil => simp [splitOnCharAux]
  | cons c cs ih =>
      by_cases h : c = sep <;> simp [splitOnCharAux, h, ih]

/-- Helper for C6: a one-piece split returns the whole input. -/
theorem splitOnCharAux_singleton (sep : Char) (l acc x : List Char)
    (h : splitOnCharAux sep l acc = [x]) : x = acc.reverse ++ l := by
  induction l generalizing acc with
  | nil =>
      simp [splitOnCharAux] at h
      simp [h.symm]
  | cons c cs ih =>
      by_cases hc : c = sep
      · rw [splitOnCharAux, if_pos hc] at h
        exact absurd (List.cons.inj h).2 (splitOnCharAux_ne_nil sep cs [])
      · rw [splitOnCharAux, if_neg hc] at h
        have := ih (c :: acc) h
        simpa using this

/-- Helper for C6: an undotted key is its own root. -/
theorem rootOf_flat (k : String) (h : subOf k = none) : rootOf k = k := by
  by_cases hlen : (splitOnChar '.' k.data).length > 1
  · simp [subOf, hlen] at h
  · have hne := splitOnCharAux_ne_nil '.' k.data []
    have h0 : (splitOnChar '.' k.data).length ≠ 0 := by
      intro hc
      exact hne (List.length_eq_zero.mp hc)
    have hlen1 : (splitOnChar '.' k.data).length = 1 := by omega
    obtain ⟨x, hx⟩ := List.length_eq_one.mp hlen1
    have hxl : x = k.data := by
      have h2 := splitOnCharAux_singleton '.' k.data [] x hx
      simpa using h2
    rw [rootOf, hx]
    subst hxl
    simp

/-- Helper for C6: the reduce step phrased through keyOf, rootOf, subOf and
valOf. -/
theorem smtpStep_eq (cfg : List (String × JsVal)) (p : List String) :
    smtpStep cfg p =
      (match subOf (keyOf p) with
       | none =>
           .ok (setK cfg (keyOf p)
             (match valOf p with | some v => .str v | none => .undef))
       | some b =>
           match lookupK cfg (rootOf (keyOf p)) with
           | some (.obj o) =>
               .ok (setK cfg (rootOf (keyOf p)) (.obj (setF o b (valOf p))))
           | some v =>
               if jsTruthy v then .error ()
               else .ok (setK cfg (rootOf (keyOf p)) (.obj (setF [] b (valOf p))))
           | none => .ok (setK cfg (rootOf (keyOf p)) (.obj (setF [] b (valOf p))))) := by
  rcases hx : splitOnChar '.' (keyOf p).data with _ | ⟨x, tail⟩
  · exact absurd hx (splitOnCharAux_ne_nil '.' (keyOf p).data [])
  · rcases tail with _ | ⟨y, ys⟩
    · simp [smtpStep, subOf, rootOf, keyOf, valOf] at hx ⊢
      simp [hx]
    · simp only [smtpStep, keyOf, valOf, rootOf, subOf] at hx ⊢
      rw [hx]
      simp only [List.map_cons, List.length_cons, List.headD_cons, List.drop_succ_cons,
        List.drop_zero]
      have hgt : ((splitOnChar '.' (p.headD "").data).length > 1) := by
        rw [hx]; simp
      rw [hx] at hgt
      simp only [if_pos (by simp : (ys.length + 1 + 1 : Nat) > 1)]
      rcases hl : lookupK cfg (String.mk x) with _ | v
      · simp
      · rcases v with _ | s | b2 | o <;> simp [jsTruthy]

/-- Helper for C6: characterization of the reduce of Mail.transporter over a
pair list whose slots are pairwise distinct and where no root is used both
undotted and dotted, generalized over the accumulating config. -/
theorem smtpFold_spec (ps : List (List String)) (acc : List (String × JsVal))
    (hmix : ∀ p ∈ ps, ∀ q ∈ ps, subOf (keyOf p) = none → subOf (keyOf q) ≠ none →
       keyOf p ≠ rootOf (keyOf q))
    (hnodup : (ps.map smtpSlot).Nodup)
    (hacc : ∀ p ∈ ps, subOf (keyOf p) ≠ none →
       ∀ v, lookupK acc (rootOf (keyOf p)) = some v →
         jsTruthy v = false ∨ ∃ o, v = .obj o) :
    ∃ cfg, ps.foldlM smtpStep acc = .ok cfg ∧
      (∀ p ∈ ps, subOf (keyOf p) = none →
         lookupK cfg (keyOf p) =
           some (match valOf p with | some v => .str v | none => .undef)) ∧
      (∀ p ∈ ps, ∀ b, subOf (keyOf p) = some b →
         cfgField cfg (rootOf (keyOf p)) b = some (valOf p)) ∧
      (∀ k, (∀ p ∈ ps, rootOf (keyOf p) ≠ k) → lookupK cfg k = lookupK acc k) ∧
      (∀ a b, (∀ p ∈ ps, ¬(rootOf (keyOf p) = a ∧
                 (subOf (keyOf p) = none ∨ subOf (keyOf p) = some b))) →
         cfgField cfg a b = cfgField acc a b) := by
  induction ps generalizing acc with
  | nil =>
      exact ⟨acc, rfl, by simp, by simp, fun k _ => rfl, fun a b _ => rfl⟩
  | cons p rest ih =>
      have hmem : p ∈ p :: rest := List.mem_cons_self p rest
      rw [List.map_cons] at hnodup
      obtain ⟨hnotin, hnodup2⟩ := List.nodup_cons.mp hnodup
      have hmix2 : ∀ q ∈ rest, ∀ t ∈ rest, subOf (keyOf q) = none →
          subOf (keyOf t) ≠ none → keyOf q ≠ rootOf (keyOf t) :=
        fun q hq t ht => hmix q (List.mem_cons_of_mem p hq) t (List.mem_cons_of_mem p ht)
      rcases hsub : subOf (keyOf p) with _ | b0
      · -- undotted head pair
        have hstep : smtpStep acc p = .ok (setK acc (keyOf p)
            (match valOf p with | some v => .str v | none => .undef)) := by
          rw [smtpStep_eq, hsub]
        have hfold1 : (p :: rest).foldlM smtpStep acc
            = rest.foldlM smtpStep (setK acc (keyOf p)
                (match valOf p with | some v => .str v | none => .undef)) := by
          rw [List.foldlM_cons, hstep]
          rfl
        have hacc2 : ∀ q ∈ rest, subOf (keyOf q) ≠ none →
            ∀ v, lookupK (setK acc (keyOf p)
                (match valOf p with | some v2 => .str v2 | none => .undef))
              (rootOf (keyOf q)) = some v →
            jsTruthy v = false ∨ ∃ o, v = .obj o := by
          intro q hq hqd v hv
          by_cases he : keyOf p = rootOf (keyOf q)
          · exact absurd he (hmix p hmem q (List.mem_cons_of_mem p hq) hsub hqd)
          · rw [lookupK_setK, if_neg he] at hv
            exact hacc q (List.mem_cons_of_mem p hq) hqd v hv
        obtain ⟨cfg, hfold, hflat, hdot, hpk, hpf⟩ :=
          ih (setK acc (keyOf p)
              (match valOf p with | some v => .str v | none => .undef))
            hmix2 hnodup2 hacc2
        refine ⟨cfg, by rw [hfold1]; exact hfold, ?_, ?_, ?_, ?_⟩
        · intro q hq hqsub
          rcases List.mem_cons.mp hq with rfl | hq2
          · have hpres : ∀ t ∈ rest, rootOf (keyOf t) ≠ keyOf q := by
              intro t ht hc
              rcases hst : subOf (keyOf t) with _ | bt
              · have hkt : keyOf t = keyOf q := by
                  rw [← rootOf_flat (keyOf t) hst]
                  exact hc
                apply hnotin
                have hslot : smtpSlot t = smtpSlot q := by
                  simp [smtpSlot, hkt, rootOf_flat (keyOf t) hst,
                    rootOf_flat (keyOf q) hsub, hst, hsub]
                rw [← hslot]
                exact List.mem_map_of_mem smtpSlot ht
              · exact (hmix q hmem t (List.mem_cons_of_mem q ht) hsub
                  (by simp [hst])) hc.symm
            rw [hpk (keyOf q) hpres, lookupK_setK, if_pos rfl]
          · exact hflat q hq2 hqsub
        · intro q hq b hqsub
          rcases List.mem_cons.mp hq with rfl | hq2
          · rw [hsub] at hqsub
            cases hqsub
          · exact hdot q hq2 b hqsub
        · intro k hk
          have h1 : ∀ t ∈ rest, rootOf (keyOf t) ≠ k :=
            fun t ht => hk t (List.mem_cons_of_mem p ht)
          have h2 : ¬ keyOf p = k := by
            have := hk p hmem
            rw [rootOf_flat (keyOf p) hsub] at this
            exact this
          rw [hpk k h1, lookupK_setK, if_neg h2]
        · intro a b hab
          have h1 : ∀ t ∈ rest, ¬(rootOf (keyOf t) = a ∧
              (subOf (keyOf t) = none ∨ subOf (keyOf t) = some b)) :=
            fun t ht => hab t (List.mem_cons_of_mem p ht)
          rw [hpf a b h1]
          by_cases he : keyOf p = a
          · exfalso
            exact hab p hmem ⟨by rw [rootOf_flat (keyOf p) hsub]; exact he, Or.inl hsub⟩
          · simp [cfgField, lookupK_setK, if_neg he]
      · -- dotted head pair
        have hd : subOf (keyOf p) ≠ none := by simp [hsub]
        have hstep2 : ∃ o2, smtpStep acc p
              = .ok (setK acc (rootOf (keyOf p)) (.obj o2)) ∧
            lookupF o2 b0 = some (valOf p) ∧
            ∀ b, b ≠ b0 → lookupF o2 b = cfgField acc (rootOf (keyOf p)) b := by
          rcases hl : lookupK acc (rootOf (keyOf p)) with _ | v
          · refine ⟨setF [] b0 (valOf p), ?_, ?_, ?_⟩
            · rw [smtpStep_eq, hsub, hl]
            · rw [lookupF_setF, if_pos rfl]
            · intro b hb
              rw [lookupF_setF, if_neg (fun hc => hb hc.symm)]
              simp [lookupF, cfgField, hl]
          · have hv := hacc p hmem hd v hl
            rcases v with _ | s | bb | o
            · refine ⟨setF [] b0 (valOf p), ?_, ?_, ?_⟩
              · rw [smtpStep_eq, hsub, hl]
                simp [jsTruthy]
              · rw [lookupF_setF, if_pos rfl]
              · intro b hb
                rw [lookupF_setF, if_neg (fun hc => hb hc.symm)]
                simp [lookupF, cfgField, hl]
            · rcases hv with hfal | ⟨o, ho⟩
              · refine ⟨setF [] b0 (valOf p), ?_, ?_, ?_⟩
                · rw [smtpStep_eq, hsub, hl]
                  simp [hfal]
                · rw [lookupF_setF, if_pos rfl]
                · intro b hb
                  rw [lookupF_setF, if_neg (fun hc => hb hc.symm)]
                  simp [lookupF, cfgField, hl]
              · cases ho
            · rcases hv with hfal | ⟨o, ho⟩
              · refine ⟨setF [] b0 (valOf p), ?_, ?_, ?_⟩
                · rw [smtpStep_eq, hsub, hl]
                  simp [jsTruthy] at hfal
                  simp [jsTruthy, hfal]
                · rw [lookupF_setF, if_pos rfl]
                · intro b hb
                  rw [lookupF_setF, if_neg (fun hc => hb hc.symm)]
                  simp [lookupF, cfgField, hl]
              · cases ho
            · refine ⟨setF o b0 (valOf p), ?_, ?_, ?_⟩
              · rw [smtpStep_eq, hsub, hl]
              · rw [lookupF_setF, if_pos rfl]
              · intro b hb
                rw [lookupF_setF, if_neg (fun hc => hb hc.symm)]
                simp [cfgField, hl]
        obtain ⟨o2, hstep, ho2self, ho2other⟩ := hstep2
        have hfold1 : (p :: rest).foldlM smtpStep acc
            = rest.foldlM smtpStep (setK acc (rootOf (keyOf p)) (.obj o2)) := by
          rw [List.foldlM_cons, hstep]
          rfl
        have hacc2 : ∀ q ∈ rest, subOf (keyOf q) ≠ none →
            ∀ v, lookupK (setK acc (rootOf (keyOf p)) (.obj o2))
              (rootOf (keyOf q)) = some v →
            jsTruthy v = false ∨ ∃ o, v = .obj o := by
          intro q hq hqd v hv
          by_cases he : rootOf (keyOf p) = rootOf (keyOf q)
          · rw [lookupK_setK, if_pos he] at hv
            exact Or.inr ⟨o2, (Option.some.inj hv).symm⟩
          · rw [lookupK_setK, if_neg he] at hv
            exact hacc q (List.mem_cons_of_mem p hq) hqd v hv
        obtain ⟨cfg, hfold, hflat, hdot, hpk, hpf⟩ :=
          ih (setK acc (rootOf (keyOf p)) (.obj o2)) hmix2 hnodup2 hacc2
        refine ⟨cfg, by rw [hfold1]; exact hfold, ?_, ?_, ?_, ?_⟩
        · intro q hq hqsub
          rcases List.mem_cons.mp hq with rfl | hq2
          · rw [hsub] at hqsub
            cases hqsub
          · exact hflat q hq2 hqsub
        · intro q hq b hqsub
          rcases List.mem_cons.mp hq with rfl | hq2
          · rw [hsub] at hqsub
            have hb : b = b0 := (Option.some.inj hqsub).symm
            subst hb
            have hnowrite : ∀ t ∈ rest, ¬(rootOf (keyOf t) = rootOf (keyOf q) ∧
                (subOf (keyOf t) = none ∨ subOf (keyOf t) = some b)) := by
              rintro t ht ⟨hroot, hcase⟩
              rcases hcase with htf | htd
              · have hkt : keyOf t = rootOf (keyOf q) := by
                  rw [← rootOf_flat (keyOf t) htf]
                  exact hroot
                exact (hmix t (List.mem_cons_of_mem q ht) q hmem htf hd) hkt
              · apply hnotin
                have hslot : smtpSlot t = smtpSlot q := by
                  simp [smtpSlot, hroot, htd, hsub]
                rw [← hslot]
                exact List.mem_map_of_mem smtpSlot ht
            rw [hpf (rootOf (keyOf q)) b hnowrite]
            simp [cfgField, lookupK_setK, ho2self]
          · exact hdot q hq2 b hqsub
        · intro k hk
          have h1 : ∀ t ∈ rest, rootOf (keyOf t) ≠ k :=
            fun t ht => hk t (List.mem_cons_of_mem p ht)
          rw [hpk k h1, lookupK_setK, if_neg (hk p hmem)]
        · intro a b hab
          have h1 : ∀ t ∈ rest, ¬(rootOf (keyOf t) = a ∧
              (subOf (keyOf t) = none ∨ subOf (keyOf t) = some b)) :=
            fun t ht => hab t (List.mem_cons_of_mem p ht)
          rw [hpf a b h1]
          by_cases he : rootOf (keyOf p) = a
          · have hb0 : ¬ b0 = b := by
              intro hc
              exact hab p hmem ⟨he, Or.inr (by rw [hsub, hc])⟩
            have hlk : lookupK (setK acc (rootOf (keyOf p)) (.obj o2)) a
                = some (.obj o2) := by
              rw [lookupK_setK, if_pos he]
            rw [cfgField, hlk]
            rw [← he]
            exact ho2other b (fun hc => hb0 hc.symm)
          · have hlk : lookupK (setK acc (rootOf (keyOf p)) (.obj o2)) a
                = lookupK acc a := by
              rw [lookupK_setK, if_neg he]
            rw [cfgField, hlk, cfgField]

/-- Helper for C6: reading back a nested field forces an object at the root. -/
theorem cfgField_eq_some (cfg : List (String × JsVal)) (a b : String)
    (w : Option String) (h : cfgField cfg a b = some w) :
    ∃ o, lookupK cfg a = some (.obj o) ∧ lookupF o b = some w := by
  rcases hlk : lookupK cfg a with _ | v
  · simp [cfgField, hlk] at h
  · rcases v with _ | s | bb | o
    · simp [cfgField, hlk] at h
    · simp [cfgField, hlk] at h
    · simp [cfgField, hlk] at h
    · simp only [cfgField, hlk] at h
      exact ⟨o, rfl, h⟩

/-- Helper for C6: the loose comparison of a string with 465 holds exactly
when the string reads as the number 465. -/
theorem jsLooseEqNum_str_iff (v : String) :
    jsLooseEqNum (.str v) 465 = true ↔ jsNumber v = some 465 := by
  rcases hn : jsNumber v with _ | m
  · simp [jsLooseEqNum, hn]
  · simp [jsLooseEqNum, hn]

/-- C6 amended: for an SMTP_CONNECTION string whose semicolon-separated
pieces are key=value pairs with pairwise-distinct slots, where no key is used
both plain and dotted at the same root and secure is not a key root, the
transporter parser succeeds and produces a config in which each undotted key
maps to its value, each dotted key a.b yields a nested object at a whose
field b holds the value, and a secure field is added exactly when a port key
is present with a nonempty (truthy) value, the field being true iff the port
value reads as the number 465; with an empty port value, or no port key at
all, no secure field is added. -/
theorem smtp_config_spec (s : String)
    (hmix : ∀ p ∈ smtpParsePairs s, ∀ q ∈ smtpParsePairs s,
       subOf (keyOf p) = none → subOf (keyOf q) ≠ none → keyOf p ≠ rootOf (keyOf q))
    (hnodup : ((smtpParsePairs s).map smtpSlot).Nodup)
    (hsecure : ∀ p ∈ smtpParsePairs s, rootOf (keyOf p) ≠ "secure") :
    ∃ cfg, smtpTransporterConfig s = .ok cfg ∧
      (∀ p ∈ smtpParsePairs s, ∀ k v, p = [k, v] → subOf k = none → k ≠ "port" →
         lookupK cfg k = some (.str v)) ∧
      (∀ p ∈ smtpParsePairs s, ∀ k v b, p = [k, v] → subOf k = some b →
         ∃ o, lookupK cfg (rootOf k) = some (.obj o) ∧ lookupF o b = some (some v)) ∧
      (∀ p ∈ smtpParsePairs s, ∀ v, p = ["port", v] →
         lookupK cfg "port" = some (.str v)) ∧
      (∀ p ∈ smtpParsePairs s, ∀ v, p = ["port", v] → v ≠ "" →
         ∃ bsec, lookupK cfg "secure" = some (.jsBool bsec) ∧
           (bsec = true ↔ jsNumber v = some 465)) ∧
      (∀ p ∈ smtpParsePairs s, ∀ v, p = ["port", v] → v = "" →
         lookupK cfg "secure" = none) ∧
      ((∀ p ∈ smtpParsePairs s, rootOf (keyOf p) ≠ "port") →
         lookupK cfg "secure" = none) := by
  obtain ⟨cfg0, hfold, hflat, hdot, hpk, hpf⟩ :=
    smtpFold_spec (smtpParsePairs s) [] hmix hnodup
      (by intro p hp hd v hv; simp [lookupK] at hv)
  have hraw : smtpConfigRaw s = .ok cfg0 := hfold
  have hsec0 : lookupK cfg0 "secure" = none := by
    rw [hpk "secure" hsecure]
    rfl
  have hflat2 : ∀ p ∈ smtpParsePairs s, ∀ k v, p = [k, v] → subOf k = none →
      lookupK cfg0 k = some (.str v) := by
    intro p hp k v hpe hsubk
    subst hpe
    have h := hflat [k, v] hp (by simpa [keyOf] using hsubk)
    simpa [keyOf, valOf] using h
  have hdot2 : ∀ p ∈ smtpParsePairs s, ∀ k v b, p = [k, v] → subOf k = some b →
      ∃ o, lookupK cfg0 (rootOf k) = some (.obj o) ∧ lookupF o b = some (some v) := by
    intro p hp k v b hpe hsubk
    subst hpe
    have h := hdot [k, v] hp b (by simpa [keyOf] using hsubk)
    simp only [keyOf, valOf, List.headD_cons, List.drop_succ_cons, List.drop_zero,
      List.head?_cons] at h
    exact cfgField_eq_some cfg0 (rootOf k) b (some v) h
  rcases hport : lookupK cfg0 "port" with _ | v
  · -- no port property on the raw config
    refine ⟨cfg0, ?_, ?_, ?_, ?_, ?_, ?_, ?_⟩
    · simp [smtpTransporterConfig, hraw, hport]
    · intro p hp k v hpe hsubk _
      exact hflat2 p hp k v hpe hsubk
    · exact hdot2
    · intro p hp v hpe
      have h := hflat2 p hp "port" v hpe (by decide)
      rw [h] at hport
      cases hport
    · intro p hp v hpe hne
      have h := hflat2 p hp "port" v hpe (by decide)
      rw [h] at hport
      cases hport
    · intro _ _ _ _ _
      exact hsec0
    · intro _
      exact hsec0
  · by_cases htru : jsTruthy v = true
    · -- truthy port: the secure flag is added
      refine ⟨setK cfg0 "secure" (.jsBool (jsLooseEqNum v 465)), ?_, ?_, ?_, ?_, ?_, ?_, ?_⟩
      · simp [smtpTransporterConfig, hraw, hport, htru]
      · intro p hp k v2 hpe hsubk _
        have hks : rootOf (keyOf p) ≠ "secure" := hsecure p hp
        rw [hpe] at hks
        simp only [keyOf, List.headD_cons] at hks
        rw [rootOf_flat k hsubk] at hks
        rw [lookupK_setK, if_neg (fun hc => hks hc.symm)]
        exact hflat2 p hp k v2 hpe hsubk
      · intro p hp k v2 b hpe hsubk
        have hks : rootOf (keyOf p) ≠ "secure" := hsecure p hp
        rw [hpe] at hks
        simp only [keyOf, List.headD_cons] at hks
        obtain ⟨o, ho1, ho2⟩ := hdot2 p hp k v2 b hpe hsubk
        refine ⟨o, ?_, ho2⟩
        rw [lookupK_setK, if_neg (fun hc => hks hc.symm)]
        exact ho1
      · intro p hp v2 hpe
        have h := hflat2 p hp "port" v2 hpe (by decide)
        rw [lookupK_setK, if_neg (by decide)]
        exact h
      · intro p hp v2 hpe hne
        have h := hflat2 p hp "port" v2 hpe (by decide)
        rw [h] at hport
        have hv2 : v = .str v2 := Option.some.inj hport.symm
        refine ⟨jsLooseEqNum v 465, ?_, ?_⟩
        · rw [lookupK_setK, if_pos rfl]
        · rw [hv2]
          exact jsLooseEqNum_str_iff v2
      · intro p hp v2 hpe hemp
        have h := hflat2 p hp "port" v2 hpe (by decide)
        rw [h] at hport
        have hv2 : v = .str v2 := Option.some.inj hport.symm
        rw [hv2, hemp] at htru
        simp [jsTruthy] at htru
      · intro hnoport
        rw [hpk "port" hnoport] at hport
        cases hport
    · -- falsy port value: no secure flag
      have htru2 : jsTruthy v = false := by
        cases hjt : jsTruthy v
        · rfl
        · exact absurd hjt htru
      refine ⟨cfg0, ?_, ?_, ?_, ?_, ?_, ?_, ?_⟩
      · simp [smtpTransporterConfig, hraw, hport, htru2]
      · intro p hp k v2 hpe hsubk _
        exact hflat2 p hp k v2 hpe hsubk
      · exact hdot2
      · intro p hp v2 hpe
        exact hflat2 p hp "port" v2 hpe (by decide)
      · intro p hp v2 hpe hne
        have h := hflat2 p hp "port" v2 hpe (by decide)
        rw [h] at hport
        have hv2 : v = .str v2 := Option.some.inj hport.symm
        rw [hv2] at htru2
        simp [jsTruthy] at htru2
        exact absurd htru2 hne
      · intro p hp v2 hpe hemp
        exact hsec0
      · intro _
        exact hsec0

/-- C6 counterexample: with SMTP_CONNECTION equal to host=h; port= the parser
produces a config whose port key is present (with an empty value) but to which
no secure field is added, because the guard tests truthiness of the port value
and the empty string is falsy. -/
theorem smtp_config_cex :
    (smtpTransporterConfig "host=h; port=").toOption =
      some [("host", .str "h"), ("port", .str "")] ∧
    lookupK [("host", JsVal.str "h"), ("port", JsVal.str "")] "secure" = none := by
  decide

/-- Witness for C6 on a concrete connection string with a service key, a port
of 465 and two dotted auth keys. -/
theorem smtp_config_spec_witness :
    ∃ cfg, smtpTransporterConfig
        "service=gmail; port=465; auth.user=me@g.com; auth.pass=pw" = .ok cfg ∧
      lookupK cfg "service" = some (.str "gmail") ∧
      (∃ o, lookupK cfg "auth" = some (.obj o) ∧
         lookupF o "user" = some (some "me@g.com")) ∧
      (∃ bsec, lookupK cfg "secure" = some (.jsBool bsec) ∧ bsec = true) := by
  obtain ⟨cfg, hok, hflat, hdot, hportv, hport, hempty, hnone⟩ :=
    smtp_config_spec "service=gmail; port=465; auth.user=me@g.com; auth.pass=pw"
      (by decide) (by decide) (by decide)
  refine ⟨cfg, hok, ?_, ?_, ?_⟩
  · exact hflat ["service", "gmail"] (by decide) "service" "gmail" rfl
      (by decide) (by decide)
  · obtain ⟨o, h1, h2⟩ := hdot ["auth.user", "me@g.com"] (by decide)
      "auth.user" "me@g.com" "user" rfl (by decide)
    have hr : rootOf "auth.user" = "auth" := by decide
    rw [hr] at h1
    exact ⟨o, h1, h2⟩
  · obtain ⟨bsec, h1, h2⟩ := hport ["port", "465"] (by decide) "465" rfl (by decide)
    exact ⟨bsec, h1, h2.mpr (by decide)⟩
